import Mathlib

/-!
Verification development for the `aws-credentials-reporter` utility
(`src/main.go`).  The program fetches IAM credential reports for a list of
AWS profiles, deduplicates the profile list, fetches the per-profile reports
concurrently under a bounded semaphore, and merges the parsed reports into a
single CSV table, optionally filtering out root-user rows.

This file gives a shallow embedding of the program's pure core:

* `hasSuffix` models Go's `strings.HasSuffix`;
* `dedup` models the deduplication loop (main.go lines 82-93);
* `pollLoop` / `runFetch` model the generate-then-poll fetch
  (`generateCredentialReport`, lines 33-75), with the remote calls given as
  oracle functions and instrumented call counters;
* `findArn` / `mergeAllRows` / `mergeResults` model the merge
  (lines 128-159), with Go's fatal `log.Fatalf` exits and slice-index panics
  rendered as `Except.error`;
* `fillResults` / `sortResults` model the indexed result slots and the
  `sort.Slice` call (lines 96-126);
* `SchedStep` models the interleaving semantics of the capacity-4 buffered
  channel used as an admission semaphore (line 97).
-/

namespace AwsCredReport

/-- Model of Go's `strings.HasSuffix s t`: the last `len t` bytes of `s`
equal `t`.  (Lean's builtin `String.endsWith` is extensionally the same test
but does not reduce in the kernel, so we compute on the character list.) -/
def hasSuffix (s t : String) : Bool :=
  s.data.drop (s.data.length - t.data.length) == t.data

/-- The `profileResult` struct of main.go (lines 20-25): the original request
index, the profile name, and the parsed report header and data rows. -/
structure ProfileResult where
  idx : Nat
  profile : String
  header : List String
  rows : List (List String)
  deriving DecidableEq, Repr, Inhabited

/-! ## Deduplication (main.go lines 82-93) -/

/-- The deduplication loop of main.go (lines 82-93): walk the input, keep a
set (`processed`, modelled as a list) of already-seen profiles, and append a
profile to the output only on its first occurrence. -/
def dedupAux : List String → List String → List String
  | [], _ => []
  | p :: ps, processed =>
    if p ∈ processed then dedupAux ps processed
    else p :: dedupAux ps (p :: processed)

/-- `unique` as computed by main.go from the raw `--profile` flags. -/
def dedup (profiles : List String) : List String :=
  dedupAux profiles []

/-- Specification-side deduplication, written from the spec's words: keep
each element's first occurrence, deleting the later duplicates.  Used only to
be compared with the source-derived `dedup`. -/
def dedupSpec : List String → List String
  | [] => []
  | x :: xs => x :: dedupSpec (xs.filter (fun y => decide (y ≠ x)))
  termination_by l => l.length
  decreasing_by
    simp only [List.length_cons]
    exact Nat.lt_succ_of_le (List.length_filter_le _ _)

theorem dedupAux_eq_spec (l : List String) :
    ∀ processed, dedupAux l processed =
      dedupSpec (l.filter (fun y => decide (y ∉ processed))) := by
  induction l with
  | nil => intro processed; simp [dedupAux, dedupSpec]
  | cons p ps ih =>
    intro processed
    by_cases hp : p ∈ processed
    · rw [dedupAux, if_pos hp, ih processed]
      congr 1
      simp [List.filter_cons, hp]
    · rw [dedupAux, if_neg hp, ih (p :: processed)]
      have hstep : List.filter (fun y => decide (y ∉ processed)) (p :: ps)
          = p :: List.filter (fun y => decide (y ∉ processed)) ps := by
        simp [List.filter_cons, hp]
      rw [hstep]
      simp only [dedupSpec, List.filter_filter]
      congr 1
      congr 1
      apply List.filter_congr
      intro a _
      by_cases h1 : a = p <;> by_cases h2 : a ∈ processed <;>
        simp [h1, h2, List.mem_cons]

theorem dedup_eq_dedupSpec (l : List String) : dedup l = dedupSpec l := by
  rw [dedup, dedupAux_eq_spec l []]
  congr 1
  apply List.filter_eq_self.mpr
  intro a _
  simp

theorem mem_dedupSpec (l : List String) : ∀ x, x ∈ dedupSpec l ↔ x ∈ l := by
  induction l using dedupSpec.induct with
  | case1 => intro x; simp [dedupSpec]
  | case2 p ps ih =>
    intro x
    simp only [dedupSpec]
    by_cases hx : x = p
    · simp [hx]
    · simp only [List.mem_cons, hx, false_or]
      rw [ih x]
      simp [List.mem_filter, hx]

theorem nodup_dedupSpec (l : List String) : (dedupSpec l).Nodup := by
  induction l using dedupSpec.induct with
  | case1 => simp [dedupSpec]
  | case2 p ps ih =>
    simp only [dedupSpec]
    refine List.Nodup.cons ?_ ih
    intro hmem
    rw [mem_dedupSpec] at hmem
    have := (List.mem_filter.mp hmem).2
    simp at this

/-- Claim C5: the working set dispatched to the fetch coordinator contains
each distinct input profile exactly once, ordered by first appearance.
`dedup` (the loop of main.go lines 82-93) agrees with the first-occurrence
specification `dedupSpec`, is duplicate-free, keeps exactly the input's
elements, and maps the spec's example `[a, b, a, c, b]` to `[a, b, c]`. -/
theorem dedup_first_occurrence :
    (∀ l : List String,
      dedup l = dedupSpec l ∧ (dedup l).Nodup ∧ ∀ x, (x ∈ dedup l ↔ x ∈ l)) ∧
    dedup ["a", "b", "a", "c", "b"] = ["a", "b", "c"] := by
  constructor
  · intro l
    refine ⟨dedup_eq_dedupSpec l, ?_, ?_⟩
    · rw [dedup_eq_dedupSpec]; exact nodup_dedupSpec l
    · intro x
      rw [dedup_eq_dedupSpec]
      exact mem_dedupSpec l x
  · rfl

/-! ## Merge engine (main.go lines 128-159) -/

/-- The arn-column search of main.go (lines 129-136): index of the first
header entry equal to `"arn"`, or `none` (Go's `arnIdx = -1`). -/
def findArn : List String → Option Nat
  | [] => none
  | h :: t => if h = "arn" then some 0 else (findArn t).map (fun k => k + 1)

/-- The inner row loop of main.go (lines 150-158) for one profile: when
`excludeRoot` is set, a row whose cell at `arnIdx` has suffix `":root"` is
skipped; every other row is emitted as the profile name prepended to the
original cells.  Go's panic on `row[arnIdx]` when the row is too short is
rendered as an `Except.error`. -/
def mergeProfileRows (excludeRoot : Bool) (arnIdx : Nat) (p : String) :
    List (List String) → Except String (List (List String))
  | [] => .ok []
  | row :: rest =>
    if excludeRoot then
      match row[arnIdx]? with
      | none => .error "runtime error: index out of range"
      | some cell =>
        if hasSuffix cell ":root" then mergeProfileRows excludeRoot arnIdx p rest
        else
          match mergeProfileRows excludeRoot arnIdx p rest with
          | .error e => .error e
          | .ok rs => .ok ((p :: row) :: rs)
    else
      match mergeProfileRows excludeRoot arnIdx p rest with
      | .error e => .error e
      | .ok rs => .ok ((p :: row) :: rs)

/-- The outer result loop of main.go (lines 149-159): concatenate the merged
rows of every profile in (sorted) result order. -/
def mergeAllRows (excludeRoot : Bool) (arnIdx : Nat) :
    List ProfileResult → Except String (List (List String))
  | [] => .ok []
  | res :: rest =>
    match mergeProfileRows excludeRoot arnIdx res.profile res.rows with
    | .error e => .error e
    | .ok a =>
      match mergeAllRows excludeRoot arnIdx rest with
      | .error e => .error e
      | .ok b => .ok (a ++ b)

/-- The merge step of main.go (lines 128-159): on an empty result list the
table stays empty; otherwise locate the arn column in the first result's
header (`log.Fatalf`, modelled as `Except.error`, when absent), emit the
synthetic header `"profile" :: header`, then all per-profile rows. -/
def mergeResults (results : List ProfileResult) (excludeRoot : Bool) :
    Except String (List (List String)) :=
  match results with
  | [] => .ok []
  | first :: _ =>
    match findArn first.header with
    | none => .error "unable to locate arn column in report header"
    | some arnIdx =>
      match mergeAllRows excludeRoot arnIdx results with
      | .error e => .error e
      | .ok dataRows => .ok (("profile" :: first.header) :: dataRows)

/-- Specification-side description of one profile's merged rows, written from
the spec's words: keep (when root-exclusion is on) exactly the rows whose arn
cell does not end in `":root"`, each with the profile identifier prepended,
in source order. -/
def emitRowsSpec (excludeRoot : Bool) (arnIdx : Nat) (p : String)
    (rows : List (List String)) : List (List String) :=
  if excludeRoot then
    (rows.filter (fun row => !hasSuffix (row.getD arnIdx "") ":root")).map
      (fun row => p :: row)
  else
    rows.map (fun row => p :: row)

/-- Specification-side description of the merged table's data rows: the
profiles' contributions concatenated in result order. -/
def mergedDataRowsSpec (excludeRoot : Bool) (arnIdx : Nat)
    (results : List ProfileResult) : List (List String) :=
  (results.map (fun r => emitRowsSpec excludeRoot arnIdx r.profile r.rows)).flatten

theorem findArn_eq_none_iff (h : List String) :
    findArn h = none ↔ "arn" ∉ h := by
  induction h with
  | nil => simp [findArn]
  | cons x t ih =>
    by_cases hx : x = "arn"
    · simp [findArn, hx]
    · rw [findArn, if_neg hx, Option.map_eq_none', ih]
      simp only [List.mem_cons, not_or]
      constructor
      · intro h1
        exact ⟨fun he => hx he.symm, h1⟩
      · intro h1
        exact h1.2

theorem findArn_lt_length (h : List String) :
    ∀ k, findArn h = some k → k < h.length := by
  induction h with
  | nil => intro k hk; simp [findArn] at hk
  | cons x t ih =>
    intro k hk
    rw [findArn] at hk
    by_cases hx : x = "arn"
    · rw [if_pos hx] at hk
      injection hk with h
      subst h
      simp
    · rw [if_neg hx, Option.map_eq_some'] at hk
      obtain ⟨m, hm, hmk⟩ := hk
      subst hmk
      have := ih m hm
      simp only [List.length_cons]
      omega

theorem mergeProfileRows_false (k : Nat) (p : String) (rows : List (List String)) :
    mergeProfileRows false k p rows = .ok (rows.map (fun row => p :: row)) := by
  induction rows with
  | nil => rfl
  | cons row rest ih => simp [mergeProfileRows, ih]

theorem mergeProfileRows_true (k : Nat) (p : String) (rows : List (List String))
    (halign : ∀ row ∈ rows, k < row.length) :
    mergeProfileRows true k p rows =
      .ok ((rows.filter (fun row => !hasSuffix (row.getD k "") ":root")).map
        (fun row => p :: row)) := by
  induction rows with
  | nil => rfl
  | cons row rest ih =>
    have hk : k < row.length := halign row (List.mem_cons_self _ _)
    have hget : row[k]? = some (row.getD k "") := by
      rw [List.getElem?_eq_getElem hk, List.getD_eq_getElem _ _ hk]
    have ihr := ih (fun r hr => halign r (List.mem_cons_of_mem _ hr))
    rw [mergeProfileRows, if_pos rfl, hget]
    by_cases hroot : hasSuffix (row.getD k "") ":root" = true
    · have hroot2 : hasSuffix (row[k]?.getD "") ":root" = true := by
        rw [hget]; exact hroot
      simp [ihr, List.filter_cons, hroot, hroot2]
    · have hroot1 : hasSuffix (row.getD k "") ":root" = false := by
        revert hroot; cases hasSuffix (row.getD k "") ":root" <;> simp
      have hroot2 : hasSuffix (row[k]?.getD "") ":root" = false := by
        rw [hget]; exact hroot1
      simp [ihr, List.filter_cons, hroot1, hroot2]

theorem mergeProfileRows_spec (flag : Bool) (k : Nat) (p : String)
    (rows : List (List String))
    (halign : flag = true → ∀ row ∈ rows, k < row.length) :
    mergeProfileRows flag k p rows = .ok (emitRowsSpec flag k p rows) := by
  cases flag with
  | false => rw [mergeProfileRows_false]; rfl
  | true => rw [mergeProfileRows_true k p rows (halign rfl)]; rfl

theorem mergeAllRows_spec (flag : Bool) (k : Nat) (results : List ProfileResult)
    (halign : flag = true → ∀ r ∈ results, ∀ row ∈ r.rows, k < row.length) :
    mergeAllRows flag k results = .ok (mergedDataRowsSpec flag k results) := by
  induction results with
  | nil => rfl
  | cons res rest ih =>
    have h1 : mergeProfileRows flag k res.profile res.rows =
        .ok (emitRowsSpec flag k res.profile res.rows) :=
      mergeProfileRows_spec flag k res.profile res.rows
        (fun hf row hrow => halign hf res (List.mem_cons_self _ _) row hrow)
    have h2 := ih (fun hf r hr => halign hf r (List.mem_cons_of_mem _ hr))
    rw [mergeAllRows, h1, h2]
    simp [mergedDataRowsSpec]

theorem mergeResults_spec (first : ProfileResult) (rest : List ProfileResult)
    (flag : Bool) (k : Nat) (hk : findArn first.header = some k)
    (halign : flag = true →
      ∀ r ∈ first :: rest, ∀ row ∈ r.rows, k < row.length) :
    mergeResults (first :: rest) flag =
      .ok (("profile" :: first.header) ::
        mergedDataRowsSpec flag k (first :: rest)) := by
  rw [mergeResults, hk]
  simp only [mergeAllRows_spec flag k (first :: rest) halign]

/-! ## Report fetcher (`generateCredentialReport`, main.go lines 33-75)

The remote IAM service is modelled by oracles: `gen` is the outcome of the
single `GenerateCredentialReport` call, `get j` the outcome of the `j`-th
`GetCredentialReport` call, and `parse` the outcome of the CSV decoding of a
retrieved payload (the `encoding/csv` library is external).  The 1-second
sleeps between polls affect only timing and are not modelled. -/

/-- Outcome of one fetch together with instrumentation counters: how many
generation requests and how many retrieval attempts were issued. -/
structure FetchOutcome where
  result : Except String (List String × List (List String))
  genCalls : Nat
  getCalls : Nat
  deriving Repr

/-- The polling loop of main.go (lines 49-58), starting at attempt `i` with
`fuel` further attempts allowed after the current one (the Go loop runs
`fuel + 1` iterations): returns the first successful payload, or the error of
the last attempt, together with the number of attempts issued. -/
def pollLoop (get : Nat → Except String String) :
    Nat → Nat → Except String String × Nat
  | 0, i => (get i, 1)
  | fuel + 1, i =>
    match get i with
    | .ok c => (.ok c, 1)
    | .error _ =>
      let r := pollLoop get fuel (i + 1)
      (r.1, r.2 + 1)

/-- The post-retrieval step of main.go (lines 64-74): parse the payload; an
empty record list yields an empty header and no rows; otherwise the first
record is the header and the remainder are the data rows. -/
def parseRecords (p : String) (parse : String → Except String (List (List String)))
    (c : String) : Except String (List String × List (List String)) :=
  match parse c with
  | .error e => .error ("parse CSV for " ++ p ++ ": " ++ e)
  | .ok [] => .ok ([], [])
  | .ok (hdr :: rows) => .ok (hdr, rows)

/-- `generateCredentialReport` of main.go (lines 33-75), from the generation
request on (profile-config loading is an external concern handled before the
oracles are available): issue the generation request once, poll with 10
attempts, wrap the last retrieval error if all fail, else parse. -/
def runFetch (p : String) (gen : Except String Unit)
    (get : Nat → Except String String)
    (parse : String → Except String (List (List String))) : FetchOutcome :=
  match gen with
  | .error e => ⟨.error ("generate credential report for " ++ p ++ ": " ++ e), 1, 0⟩
  | .ok _ =>
    match (pollLoop get 9 0).1 with
    | .error e => ⟨.error ("fetch credential report for " ++ p ++ ": " ++ e), 1,
        (pollLoop get 9 0).2⟩
    | .ok content => ⟨parseRecords p parse content, 1, (pollLoop get 9 0).2⟩

theorem pollLoop_calls_le (get : Nat → Except String String) :
    ∀ fuel i, (pollLoop get fuel i).2 ≤ fuel + 1 := by
  intro fuel
  induction fuel with
  | zero => intro i; simp [pollLoop]
  | succ f ih =>
    intro i
    rw [pollLoop]
    cases hg : get i with
    | ok c => simp
    | error e =>
      simp only []
      have := ih (i + 1)
      omega

theorem pollLoop_first_success (get : Nat → Except String String) :
    ∀ fuel i K c, K ≤ fuel →
      (∀ j, j < K → ∃ e, get (i + j) = .error e) →
      get (i + K) = .ok c →
      (pollLoop get fuel i).1 = .ok c := by
  intro fuel
  induction fuel with
  | zero =>
    intro i K c hK hfail hsucc
    interval_cases K
    simpa [pollLoop] using hsucc
  | succ f ih =>
    intro i K c hK hfail hsucc
    rw [pollLoop]
    cases K with
    | zero =>
      simp only [Nat.add_zero] at hsucc
      rw [hsucc]
    | succ K =>
      obtain ⟨e, he⟩ := hfail 0 (Nat.succ_pos K)
      simp only [Nat.add_zero] at he
      rw [he]
      simp only []
      refine ih (i + 1) K c (Nat.le_of_succ_le_succ hK) ?_ ?_
      · intro j hj
        obtain ⟨e2, he2⟩ := hfail (j + 1) (Nat.succ_lt_succ hj)
        exact ⟨e2, by rw [show i + 1 + j = i + (j + 1) by omega]; exact he2⟩
      · rw [show i + 1 + K = i + (K + 1) by omega]
        exact hsucc

theorem pollLoop_all_fail (get : Nat → Except String String) :
    ∀ fuel i, (∀ j, j ≤ fuel → ∃ e, get (i + j) = .error e) →
      (pollLoop get fuel i).1 = get (i + fuel) := by
  intro fuel
  induction fuel with
  | zero => intro i _; simp [pollLoop]
  | succ f ih =>
    intro i hfail
    rw [pollLoop]
    obtain ⟨e, he⟩ := hfail 0 (Nat.zero_le _)
    simp only [Nat.add_zero] at he
    rw [he]
    simp only []
    rw [ih (i + 1) ?_, show i + 1 + f = i + (f + 1) by omega]
    intro j hj
    obtain ⟨e2, he2⟩ := hfail (j + 1) (Nat.succ_le_succ hj)
    exact ⟨e2, by rw [show i + 1 + j = i + (j + 1) by omega]; exact he2⟩

/-- Claim C4: retrieval is attempted at most 10 times per fetch; a first
success at attempt `K` (0-based, so in particular `K = 9` after nine
failures) makes the fetch proceed with that payload through CSV parsing; ten
failures produce a retrieval-timeout error wrapping the last underlying
error; the generation request is issued exactly once, never retried. -/
theorem fetch_retry_policy (p : String) (gen : Except String Unit)
    (get : Nat → Except String String)
    (parse : String → Except String (List (List String)))
    (hgen : gen = .ok ()) :
    (runFetch p gen get parse).genCalls = 1 ∧
    (runFetch p gen get parse).getCalls ≤ 10 ∧
    (∀ K c, K ≤ 9 → (∀ j, j < K → ∃ e, get j = .error e) → get K = .ok c →
      (runFetch p gen get parse).result = parseRecords p parse c) ∧
    (∀ eLast, (∀ j, j ≤ 9 → ∃ e, get j = .error e) → get 9 = .error eLast →
      (runFetch p gen get parse).result =
        .error ("fetch credential report for " ++ p ++ ": " ++ eLast)) := by
  subst hgen
  refine ⟨?_, ?_, ?_, ?_⟩
  · rw [runFetch]
    cases h : (pollLoop get 9 0).1 <;> simp
  · rw [runFetch]
    have hle := pollLoop_calls_le get 9 0
    cases h : (pollLoop get 9 0).1 <;> simpa using hle
  · intro K c hK hfail hsucc
    have hpoll : (pollLoop get 9 0).1 = .ok c := by
      refine pollLoop_first_success get 9 0 K c hK ?_ ?_
      · intro j hj
        simpa using hfail j hj
      · simpa using hsucc
    rw [runFetch]
    split
    · rename_i e he
      rw [hpoll] at he
      exact absurd he (by simp)
    · rename_i content hc
      rw [hpoll] at hc
      injection hc with h2
      subst h2
      rfl
  · intro eLast hfail hlast
    have hpoll : (pollLoop get 9 0).1 = .error eLast := by
      rw [pollLoop_all_fail get 9 0 (fun j hj => by simpa using hfail j hj)]
      simpa using hlast
    rw [runFetch]
    split
    · rename_i e he
      rw [hpoll] at he
      injection he with h2
      subst h2
      rfl
    · rename_i content hc
      rw [hpoll] at hc
      exact absurd hc (by simp)

/-! ## Merge-engine claims -/

/-- Claim C3: for results whose rows align with the canonical header, with
root-exclusion on the merged data rows are exactly the rows whose arn cell
does not end in `":root"` (each emitted as the profile prepended to the
unchanged original cells, in source order); with root-exclusion off every
row is emitted.  `mergedDataRowsSpec` is the specification-side
characterization: occurrence-for-occurrence, a source row is absent from the
merged table iff its arn cell ends in `":root"` (under exclusion), and
present always (without exclusion). -/
theorem root_filtering (first : ProfileResult) (rest : List ProfileResult)
    (k : Nat) (hk : findArn first.header = some k)
    (halign : ∀ r ∈ first :: rest, ∀ row ∈ r.rows,
      row.length = first.header.length) :
    mergeResults (first :: rest) true =
      .ok (("profile" :: first.header) ::
        mergedDataRowsSpec true k (first :: rest)) ∧
    mergeResults (first :: rest) false =
      .ok (("profile" :: first.header) ::
        mergedDataRowsSpec false k (first :: rest)) := by
  have hkl : k < first.header.length := findArn_lt_length first.header k hk
  have halign2 : ∀ (flag : Bool), flag = true →
      ∀ r ∈ first :: rest, ∀ row ∈ r.rows, k < row.length := by
    intro _ _ r hr row hrow
    rw [halign r hr row hrow]
    exact hkl
  exact ⟨mergeResults_spec first rest true k hk (halign2 true),
    mergeResults_spec first rest false k hk (halign2 false)⟩

/-- Claim C7: whenever the result list is non-empty, the merge searches the
first result's header for a column named exactly `"arn"` and fails fatally
when none exists — for either value of the exclude-root flag. -/
theorem missing_arn_column_fatal (first : ProfileResult)
    (rest : List ProfileResult) (flag : Bool)
    (hmiss : "arn" ∉ first.header) :
    mergeResults (first :: rest) flag =
      .error "unable to locate arn column in report header" := by
  rw [mergeResults, (findArn_eq_none_iff first.header).mpr hmiss]

/-- Claim C9: an empty result list merges to an empty table; a successful
merge of a non-empty result list always starts with the literal column
`"profile"` prepended to the first result's header. -/
theorem merge_table_shape (flag : Bool) :
    mergeResults [] flag = .ok [] ∧
    ∀ (first : ProfileResult) (rest : List ProfileResult)
      (t : List (List String)),
      mergeResults (first :: rest) flag = .ok t →
      ∃ dataRows, t = ("profile" :: first.header) :: dataRows := by
  refine ⟨rfl, ?_⟩
  intro first rest t hmerge
  rw [mergeResults] at hmerge
  split at hmerge
  · exact absurd hmerge (by simp)
  · split at hmerge
    · exact absurd hmerge (by simp)
    · rename_i dataRows hall
      injection hmerge with h2
      exact ⟨dataRows, h2.symm⟩

/-- First profile of the C2 counterexample: a one-column header. -/
def mismatchA : ProfileResult :=
  { idx := 0, profile := "acct1", header := ["arn"],
    rows := [["arn:aws:iam::1:user/alice"]] }

/-- Second profile of the C2 counterexample: a structurally different
two-column header (different names, different order, different length). -/
def mismatchB : ProfileResult :=
  { idx := 1, profile := "acct2", header := ["user", "arn"],
    rows := [["bob", "arn:aws:iam::2:root"]] }

/-- Counterexample to claim C2 as stated: the two profiles' headers are
structurally different, yet the merge succeeds for both flag values instead
of failing with a schema-inconsistency error — with exclusion enabled it even
emits `mismatchB`'s root row, because the arn position of the *first* header
points at `mismatchB`'s `"user"` column. -/
theorem header_mismatch_merges_anyway :
    mismatchA.header ≠ mismatchB.header ∧
    mergeResults [mismatchA, mismatchB] false =
      .ok [["profile", "arn"],
           ["acct1", "arn:aws:iam::1:user/alice"],
           ["acct2", "bob", "arn:aws:iam::2:root"]] ∧
    mergeResults [mismatchA, mismatchB] true =
      .ok [["profile", "arn"],
           ["acct1", "arn:aws:iam::1:user/alice"],
           ["acct2", "bob", "arn:aws:iam::2:root"]] := by
  exact ⟨by decide, rfl, rfl⟩

theorem mergeAllRows_headers_irrelevant (flag : Bool) (k : Nat)
    (g : ProfileResult → List String) :
    ∀ L : List ProfileResult,
      mergeAllRows flag k (L.map (fun r => { r with header := g r })) =
        mergeAllRows flag k L := by
  intro L
  induction L with
  | nil => rfl
  | cons r rest ih => simp only [List.map_cons, mergeAllRows, ih]

/-- Claim C2 as amended: the merge performs no header validation at all — it
adopts the first result's header as canonical and never inspects any other
result's header, so changing every non-first header arbitrarily (in
particular to a mismatched one) leaves the merge outcome unchanged, and no
schema-inconsistency error exists. -/
theorem merge_never_validates_headers (first : ProfileResult)
    (rest : List ProfileResult) (flag : Bool)
    (g : ProfileResult → List String) :
    mergeResults (first :: rest.map (fun r => { r with header := g r })) flag =
      mergeResults (first :: rest) flag := by
  cases hfa : findArn first.header with
  | none => rw [mergeResults, mergeResults, hfa]
  | some k =>
    rw [mergeResults, mergeResults, hfa]
    simp only [mergeAllRows, mergeAllRows_headers_irrelevant flag k g rest]

theorem runFetch_empty_payload (p : String)
    (get : Nat → Except String String)
    (parse : String → Except String (List (List String))) (c : String)
    (hpoll : (pollLoop get 9 0).1 = .ok c)
    (hparse : parse c = .ok []) :
    (runFetch p (.ok ()) get parse).result = .ok ([], []) := by
  rw [runFetch]
  split
  · rename_i e he
    rw [hpoll] at he
    exact absurd he (by simp)
  · rename_i content hc
    rw [hpoll] at hc
    injection hc with h2
    subst h2
    show parseRecords p parse c = .ok ([], [])
    rw [parseRecords, hparse]

theorem mergedDataRowsSpec_cons_empty (flag : Bool) (k : Nat) (i : Nat)
    (q : String) (h : List String) (rest : List ProfileResult) :
    mergedDataRowsSpec flag k
      ({ idx := i, profile := q, header := h, rows := [] } :: rest) =
      mergedDataRowsSpec flag k rest := by
  simp [mergedDataRowsSpec, emitRowsSpec]

/-- Claim C6: a fetch whose retrieved payload parses to zero records succeeds
with an empty header and no rows instead of erroring; and a first profile
carrying a header but zero data rows contributes its header (with `"arn"`
present, as the merge demands) and zero data rows to the merged table,
without error and for either flag value. -/
theorem empty_payload_tolerated (p : String) (gen : Except String Unit)
    (get : Nat → Except String String)
    (parse : String → Except String (List (List String))) (c : String)
    (hgen : gen = .ok ()) (hpoll : (pollLoop get 9 0).1 = .ok c)
    (hparse : parse c = .ok []) :
    (runFetch p gen get parse).result = .ok ([], []) ∧
    ∀ (q : String) (h : List String) (rest : List ProfileResult) (k : Nat)
      (flag : Bool),
      findArn h = some k →
      (∀ r ∈ rest, ∀ row ∈ r.rows, k < row.length) →
      mergeResults ({ idx := 0, profile := q, header := h, rows := [] } :: rest)
        flag = .ok (("profile" :: h) :: mergedDataRowsSpec flag k rest) := by
  subst hgen
  refine ⟨runFetch_empty_payload p get parse c hpoll hparse, ?_⟩
  intro q h rest k flag hk halign
  have hm := mergeResults_spec
    { idx := 0, profile := q, header := h, rows := [] } rest flag k hk ?_
  · rw [hm, mergedDataRowsSpec_cons_empty]
  · intro _ r hr row hrow
    rcases List.mem_cons.mp hr with h1 | h2
    · subst h1
      simp at hrow
    · exact halign r h2 row hrow

/-- Claim C8: when the first profile's fetch succeeds with an entirely empty
payload, its nil header reaches the merge, and the merge fails fatally with
the missing-arn-column error regardless of the flag and of any data held by
the other profiles — so the "no data for this profile" outcome is not
tolerated in first position. -/
theorem first_empty_payload_fatal (p : String) (gen : Except String Unit)
    (get : Nat → Except String String)
    (parse : String → Except String (List (List String))) (c : String)
    (q : String) (rest : List ProfileResult) (flag : Bool)
    (hgen : gen = .ok ()) (hpoll : (pollLoop get 9 0).1 = .ok c)
    (hparse : parse c = .ok []) :
    (runFetch p gen get parse).result = .ok ([], []) ∧
    mergeResults ({ idx := 0, profile := q, header := [], rows := [] } :: rest)
      flag = .error "unable to locate arn column in report header" := by
  subst hgen
  exact ⟨runFetch_empty_payload p get parse c hpoll hparse, rfl⟩

/-! ## Fetch coordinator: indexed slots and ordering (main.go lines 96-126)

Each goroutine writes `results[i] = profileResult{idx: i, ...}` into its own
pre-sized slot (line 113); the order in which the concurrent tasks complete
is modelled as an arbitrary list `order` of slot indices (with repetitions
allowed; a run in which every task completed covers every index).  After
`eg.Wait()` the slice is sorted by `idx` (lines 124-126). -/

/-- The pre-sized result slice (`make([]profileResult, n)`, line 98, Go
zero-valued entries) after the writes `results[i] = f i` have been applied
in completion order `order`. -/
def fillResults (n : Nat) (f : Fin n → ProfileResult)
    (order : List (Fin n)) : List ProfileResult :=
  order.foldl (fun acc i => acc.set i.1 (f i)) (List.replicate n default)

/-- The `sort.Slice` call of main.go (lines 124-126), comparing by `idx`.
Go's sort is unspecified up to the ordering predicate; on the coordinator's
pairwise-distinct `idx` values every correct sort agrees, so it is modelled
by insertion sort over `idx ≤ idx`. -/
def sortResults (l : List ProfileResult) : List ProfileResult :=
  List.insertionSort (fun a b => a.idx ≤ b.idx) l

theorem foldl_set_length (f : Fin n → ProfileResult) :
    ∀ (order : List (Fin n)) (acc : List ProfileResult),
      (order.foldl (fun acc i => acc.set i.1 (f i)) acc).length = acc.length := by
  intro order
  induction order with
  | nil => intro acc; rfl
  | cons i rest ih =>
    intro acc
    rw [List.foldl_cons, ih, List.length_set]

theorem foldl_set_getElem? (f : Fin n → ProfileResult) :
    ∀ (order : List (Fin n)) (acc : List ProfileResult),
      acc.length = n → ∀ j : Fin n,
      (order.foldl (fun acc i => acc.set i.1 (f i)) acc)[j.1]? =
        if j ∈ order then some (f j) else acc[j.1]? := by
  intro order
  induction order with
  | nil =>
    intro acc _ j
    simp
  | cons i rest ih =>
    intro acc hacc j
    rw [List.foldl_cons]
    rw [ih (acc.set i.1 (f i)) (by rw [List.length_set]; exact hacc) j]
    by_cases hj : j ∈ rest
    · rw [if_pos hj, if_pos (List.mem_cons_of_mem _ hj)]
    · rw [if_neg hj]
      by_cases hij : j = i
      · subst hij
        rw [if_pos (List.mem_cons_self _ _)]
        rw [List.getElem?_set_eq_of_lt]
        rw [hacc]
        exact j.isLt
      · rw [if_neg (by
          intro hmem
          rcases List.mem_cons.mp hmem with h1 | h2
          · exact hij h1
          · exact hj h2)]
        exact List.getElem?_set_ne (i := i.1) (j := j.1)
          (fun he => hij (Fin.eq_of_val_eq he).symm)

theorem fillResults_covered (n : Nat) (f : Fin n → ProfileResult)
    (order : List (Fin n)) (hcov : ∀ i : Fin n, i ∈ order) :
    fillResults n f order = List.ofFn f := by
  apply List.ext_getElem?
  intro m
  by_cases hm : m < n
  · have hj := foldl_set_getElem? f order (List.replicate n default)
      (List.length_replicate n default) ⟨m, hm⟩
    rw [fillResults, hj, if_pos (hcov ⟨m, hm⟩), List.getElem?_ofFn]
    simp [List.ofFnNthVal, hm]
  · have h1 : (fillResults n f order).length ≤ m := by
      rw [fillResults, foldl_set_length, List.length_replicate]
      omega
    have h2 : (List.ofFn f).length ≤ m := by
      rw [List.length_ofFn]
      omega
    rw [List.getElem?_eq_none h1, List.getElem?_eq_none h2]

theorem sortResults_of_indexed (n : Nat) (f : Fin n → ProfileResult)
    (hidx : ∀ i, (f i).idx = i.1) :
    sortResults (List.ofFn f) = List.ofFn f := by
  apply List.Sorted.insertionSort_eq
  rw [List.Sorted, List.pairwise_ofFn]
  intro i j hij
  rw [hidx i, hidx j]
  exact Nat.le_of_lt hij

/-- Claim C1: for every assignment `f` of per-profile results (slot `i`
holding profile `i`'s result, `idx = i`) and every completion order `order`
of the concurrent fetches that covers all tasks, the filled-and-sorted result
list is exactly the original deduplicated request order `List.ofFn f`, and
the merged table's data rows are `mergedDataRowsSpec` over that order: the
profiles' row blocks concatenated in request order (grouped by profile), each
block keeping its source payload's row order. -/
theorem merge_order_invariant (n : Nat) (f : Fin n → ProfileResult)
    (order : List (Fin n)) (flag : Bool) (k : Nat) (hn : 0 < n)
    (hcov : ∀ i : Fin n, i ∈ order)
    (hidx : ∀ i, (f i).idx = i.1)
    (hk : findArn (f ⟨0, hn⟩).header = some k)
    (halign : ∀ i : Fin n, ∀ row ∈ (f i).rows,
      row.length = (f ⟨0, hn⟩).header.length) :
    sortResults (fillResults n f order) = List.ofFn f ∧
    mergeResults (sortResults (fillResults n f order)) flag =
      .ok (("profile" :: (f ⟨0, hn⟩).header) ::
        mergedDataRowsSpec flag k (List.ofFn f)) := by
  have hfill : sortResults (fillResults n f order) = List.ofFn f := by
    rw [fillResults_covered n f order hcov, sortResults_of_indexed n f hidx]
  refine ⟨hfill, ?_⟩
  rw [hfill]
  have hkl : k < (f ⟨0, hn⟩).header.length := findArn_lt_length _ k hk
  obtain ⟨m, rfl⟩ : ∃ m, n = m + 1 := ⟨n - 1, (Nat.succ_pred_eq_of_pos hn).symm⟩
  have h0 : (0 : Fin (m + 1)) = ⟨0, hn⟩ := by
    apply Fin.ext
    simp
  rw [List.ofFn_succ, h0]
  refine mergeResults_spec (f ⟨0, hn⟩) (List.ofFn fun i => f i.succ) flag k hk ?_
  intro _ r hr row hrow
  rcases List.mem_cons.mp hr with h1 | h2
  · subst h1
    rw [halign ⟨0, hn⟩ row hrow]
    exact hkl
  · rcases Set.mem_range.mp ((List.mem_ofFn _ r).mp h2) with ⟨i, hi⟩
    rw [← hi] at hrow
    rw [halign i.succ row hrow]
    exact hkl

/-! ## Admission gate (main.go lines 96-117)

One goroutine per deduplicated profile; each sends on the capacity-4
buffered channel `sem` before fetching and receives from it (deferred) when
done.  The interleaving semantics of that semaphore is a step relation on the
tasks' lifecycle states. -/

/-- Lifecycle state of one fetch task: still blocked on `sem <- struct{}{}`,
holding a semaphore slot (fetch in progress), or finished (slot released by
the deferred `<-sem`). -/
inductive TaskState where
  | pending
  | holding
  | finished
  deriving DecidableEq, Repr

/-- Number of tasks currently holding a slot — the fill level of the
capacity-4 buffered channel `sem` (line 97). -/
def countHolding (l : List TaskState) : Nat :=
  l.countP (fun s => decide (s = TaskState.holding))

/-- Interleaving semantics of the coordinator's tasks (lines 100-117): a
pending task is admitted only while fewer than 4 slots are held (a send on a
full capacity-4 buffered channel blocks); a holding task may finish at any
time, releasing its slot.  Fetch outcomes are irrelevant to the gate. -/
inductive SchedStep : List TaskState → List TaskState → Prop where
  | acquire (l1 l2 : List TaskState) :
      countHolding (l1 ++ TaskState.pending :: l2) < 4 →
      SchedStep (l1 ++ TaskState.pending :: l2) (l1 ++ TaskState.holding :: l2)
  | release (l1 l2 : List TaskState) :
      SchedStep (l1 ++ TaskState.holding :: l2) (l1 ++ TaskState.finished :: l2)

/-- States reachable by a coordinator run launched with one task per
deduplicated profile, all initially blocked on the gate. -/
def SchedReachable (n : Nat) (s : List TaskState) : Prop :=
  Relation.ReflTransGen SchedStep (List.replicate n TaskState.pending) s

theorem schedStep_invariant (s t : List TaskState) (hst : SchedStep s t)
    (hs : countHolding s ≤ 4) : countHolding t ≤ 4 := by
  have e1 : decide (TaskState.pending = TaskState.holding) = false := rfl
  have e2 : decide (TaskState.holding = TaskState.holding) = true := rfl
  have e3 : decide (TaskState.finished = TaskState.holding) = false := rfl
  cases hst with
  | acquire l1 l2 hlt =>
    rw [countHolding, List.countP_append, List.countP_cons, e1] at hlt hs
    rw [countHolding, List.countP_append, List.countP_cons, e2]
    simp at *
    omega
  | release l1 l2 =>
    rw [countHolding, List.countP_append, List.countP_cons, e2] at hs
    rw [countHolding, List.countP_append, List.countP_cons, e3]
    simp at *
    omega

theorem countHolding_replicate_pending (n : Nat) :
    countHolding (List.replicate n TaskState.pending) = 0 := by
  rw [countHolding, List.countP_eq_zero]
  intro a ha
  rw [List.eq_of_mem_replicate ha]
  simp

/-- Claim C10: in every state reachable by the coordinator's interleaving
semantics — one task per deduplicated profile, admission by the capacity-4
buffered channel — at most 4 tasks hold the admission gate simultaneously. -/
theorem admission_gate_bound (n : Nat) (s : List TaskState)
    (hreach : SchedReachable n s) : countHolding s ≤ 4 := by
  induction hreach with
  | refl =>
    rw [countHolding_replicate_pending]
    omega
  | tail hsteps hstep ih =>
    exact schedStep_invariant _ _ hstep ih

/-! ## Witnesses: the claim theorems applied at concrete inputs -/

/-- Profile slot assignment for the C1 witness (the spec's end-to-end
example): slot 0 is `acct1` with a user row, slot 1 is `acct2` with a root
row. -/
def c1f : Fin 2 → ProfileResult := fun i =>
  if i.1 = 0 then
    { idx := 0, profile := "acct1", header := ["user", "arn", "active"],
      rows := [["alice", "arn:aws:iam::1:user/alice", "true"]] }
  else
    { idx := 1, profile := "acct2", header := ["user", "arn", "active"],
      rows := [["root", "arn:aws:iam::2:root", "true"]] }

/-- Completion order for the C1 witness: `acct2`'s fetch finishes first. -/
def c1order : List (Fin 2) := [1, 0]

theorem merge_order_invariant_witness :
    (∀ i : Fin 2, i ∈ c1order) ∧
    sortResults (fillResults 2 c1f c1order) = List.ofFn c1f ∧
    mergeResults (sortResults (fillResults 2 c1f c1order)) true =
      .ok [["profile", "user", "arn", "active"],
           ["acct1", "alice", "arn:aws:iam::1:user/alice", "true"]] := by
  have h := merge_order_invariant 2 c1f c1order true 1 (by omega)
    (by decide) (by decide) (by decide) (by decide)
  refine ⟨by decide, h.1, ?_⟩
  rw [h.2]
  rfl

theorem root_filtering_witness :
    findArn ["user", "arn", "active"] = some 1 ∧
    mergeResults
      [{ idx := 0, profile := "acct1", header := ["user", "arn", "active"],
         rows := [["alice", "arn:aws:iam::1:user/alice", "true"]] },
       { idx := 1, profile := "acct2", header := ["user", "arn", "active"],
         rows := [["root", "arn:aws:iam::2:root", "true"]] }] true =
      .ok [["profile", "user", "arn", "active"],
           ["acct1", "alice", "arn:aws:iam::1:user/alice", "true"]] ∧
    mergeResults
      [{ idx := 0, profile := "acct1", header := ["user", "arn", "active"],
         rows := [["alice", "arn:aws:iam::1:user/alice", "true"]] },
       { idx := 1, profile := "acct2", header := ["user", "arn", "active"],
         rows := [["root", "arn:aws:iam::2:root", "true"]] }] false =
      .ok [["profile", "user", "arn", "active"],
           ["acct1", "alice", "arn:aws:iam::1:user/alice", "true"],
           ["acct2", "root", "arn:aws:iam::2:root", "true"]] := by
  have h := root_filtering
    { idx := 0, profile := "acct1", header := ["user", "arn", "active"],
      rows := [["alice", "arn:aws:iam::1:user/alice", "true"]] }
    [{ idx := 1, profile := "acct2", header := ["user", "arn", "active"],
       rows := [["root", "arn:aws:iam::2:root", "true"]] }]
    1 (by decide) (by decide)
  refine ⟨by decide, ?_, ?_⟩
  · rw [h.1]; rfl
  · rw [h.2]; rfl

/-- Retrieval oracle for the C4 witness: nine not-ready errors, success on
the tenth attempt. -/
def c4get : Nat → Except String String := fun j =>
  if j = 9 then .ok "payload" else .error "ReportNotPresent"

/-- Parse oracle for the C4 witness. -/
def c4parse : String → Except String (List (List String)) := fun _ =>
  .ok [["user", "arn"], ["alice", "arn:x"]]

theorem fetch_retry_policy_witness :
    (runFetch "acct" (.ok ()) c4get c4parse).genCalls = 1 ∧
    (runFetch "acct" (.ok ()) c4get c4parse).getCalls ≤ 10 ∧
    (runFetch "acct" (.ok ()) c4get c4parse).result =
      .ok (["user", "arn"], [["alice", "arn:x"]]) := by
  have h := fetch_retry_policy "acct" (.ok ()) c4get c4parse rfl
  refine ⟨h.1, h.2.1, ?_⟩
  have hfail : ∀ j, j < 9 → ∃ e, c4get j = Except.error e := by
    intro j hj
    refine ⟨"ReportNotPresent", ?_⟩
    simp only [c4get]
    rw [if_neg (by omega)]
  have h3 := h.2.2.1 9 "payload" (by omega) hfail rfl
  rw [h3]
  rfl

/-- Retrieval oracle for the C6 witness: immediate success with an empty
payload. -/
def c6get : Nat → Except String String := fun _ => .ok ""

/-- Parse oracle for the C6 witness: the payload decodes to zero records. -/
def c6parse : String → Except String (List (List String)) := fun _ => .ok []

theorem empty_payload_tolerated_witness :
    (runFetch "acct" (.ok ()) c6get c6parse).result = .ok ([], []) ∧
    mergeResults
      [{ idx := 0, profile := "p1", header := ["arn"], rows := [] },
       { idx := 1, profile := "p2", header := ["arn"], rows := [["arn:x"]] }]
      false = .ok [["profile", "arn"], ["p2", "arn:x"]] := by
  have h := empty_payload_tolerated "acct" (.ok ()) c6get c6parse "" rfl rfl rfl
  refine ⟨h.1, ?_⟩
  have h2 := h.2 "p1" ["arn"]
    [{ idx := 1, profile := "p2", header := ["arn"], rows := [["arn:x"]] }]
    0 false (by decide) (by decide)
  rw [h2]
  rfl

theorem missing_arn_column_fatal_witness :
    "arn" ∉ ["user", "password_enabled"] ∧
    mergeResults
      [{ idx := 0, profile := "p1", header := ["user", "password_enabled"],
         rows := [["alice", "true"]] }] false =
      .error "unable to locate arn column in report header" :=
  ⟨by decide,
    missing_arn_column_fatal
      { idx := 0, profile := "p1", header := ["user", "password_enabled"],
        rows := [["alice", "true"]] } [] false (by decide)⟩

/-- Retrieval oracle for the C8 witness. -/
def c8get : Nat → Except String String := fun _ => .ok ""

/-- Parse oracle for the C8 witness: zero records. -/
def c8parse : String → Except String (List (List String)) := fun _ => .ok []

theorem first_empty_payload_fatal_witness :
    (runFetch "acct" (.ok ()) c8get c8parse).result = .ok ([], []) ∧
    mergeResults
      [{ idx := 0, profile := "p1", header := [], rows := [] },
       { idx := 1, profile := "p2", header := ["arn"], rows := [["arn:x"]] }]
      false = .error "unable to locate arn column in report header" :=
  first_empty_payload_fatal "acct" (.ok ()) c8get c8parse "" "p1"
    [{ idx := 1, profile := "p2", header := ["arn"], rows := [["arn:x"]] }]
    false rfl rfl rfl

theorem merge_table_shape_witness :
    mergeResults [] false = .ok [] ∧
    ∃ dataRows, [["profile", "arn"], ["p1", "arn:x"]] =
      ("profile" :: ["arn"]) :: dataRows := by
  have h := merge_table_shape false
  exact ⟨h.1, h.2
    { idx := 0, profile := "p1", header := ["arn"], rows := [["arn:x"]] } []
    [["profile", "arn"], ["p1", "arn:x"]] rfl⟩

theorem admission_gate_bound_witness :
    SchedReachable 2 [TaskState.holding, TaskState.pending] ∧
    countHolding [TaskState.holding, TaskState.pending] ≤ 4 := by
  have hstep : SchedStep [TaskState.pending, TaskState.pending]
      [TaskState.holding, TaskState.pending] :=
    SchedStep.acquire [] [TaskState.pending] (by decide)
  have hreach : SchedReachable 2 [TaskState.holding, TaskState.pending] :=
    Relation.ReflTransGen.single hstep
  exact ⟨hreach, admission_gate_bound 2 _ hreach⟩

end AwsCredReport
